/-
Verification of the Macro Maker Pro execution core against its
natural-language specification.

Shallow embedding of:
  * `Macro/image_ocr.py`  — `process_ocr_text` (OCR text post-processing)
                            and `match_template` (template matching);
  * `Macro/executor.py`   — `MacroExecutor.__init__`, `run`, `stop`,
                            `_execute_action` dispatch, `_execute_key`,
                            and the `img_check` wait loop.

Conventions of the embedding:
  * Python strings are Lean `String`/`List Char`; only ASCII word/digit
    classes are modelled (the spec's examples are ASCII).
  * Scores and durations are `ℚ` (the claims never exercise float
    rounding, only plumbing of values).
  * Exceptions are modelled with `Except`/`Option`; a handler that raises
    returns `.error msg`.
  * Side effects (callbacks, key presses, sleeps) are modelled as an
    emitted event trace.
  * External oracles (the regex engine for `email`/`custom` modes, OpenCV
    availability, image decoding, the correlation surface) are explicit
    parameters, so every embedded function is total and executable.
-/

import Mathlib

namespace MacroProof

/-! ## Python string helpers -/

/-- Python `str.isspace`-style whitespace used by `str.strip()` (ASCII part). -/
def pySpace (c : Char) : Bool :=
  c = ' ' ∨ c = '\t' ∨ c = '\n' ∨ c = '\r' ∨ c = '\x0b' ∨ c = '\x0c'

/-- Python `str.strip()` on a character list: drop whitespace at both ends. -/
def pyStripList (cs : List Char) : List Char :=
  ((cs.dropWhile pySpace).reverse.dropWhile pySpace).reverse

/-- Python `str.strip()`. -/
def pyStrip (s : String) : String :=
  String.mk (pyStripList s.data)

/-- Python `str.lower()` (character-wise, ASCII semantics). -/
def pyLower (s : String) : String :=
  String.mk (s.data.map Char.toLower)

/-- Regex `\d` (ASCII). -/
def reDigit (c : Char) : Bool := c.isDigit

/-- Regex word character `\w` (ASCII): letter, digit or underscore. -/
def reWord (c : Char) : Bool := c.isAlpha || c.isDigit || c = '_'

/-- Whether an optional character (a character just outside the match, or
none at the string edge) is a word character; `\b` holds at a position when
exactly one side is a word character, and a digit is always a word
character, so for the patterns below only the outside neighbour matters. -/
def wordAt (c : Option Char) : Bool :=
  match c with
  | some c => reWord c
  | none => false

/-! ## `process_ocr_text` (Macro/image_ocr.py lines 122-197)

`mode = "legacy"` uses `re.search(r"\b(\d{k})\b", text)` for
k = 9, 8, 7, 6 in that order.  For a fixed-length all-digit pattern with
word boundaries on both sides, `re.search` returns the match at the least
starting index `i` such that positions `i..i+k-1` are digits, the
character before `i` (if any) is not a word character, and the character
at `i+k` (if any) is not a word character. -/

/-- `standaloneAt cs k i`: the pattern `\b\d{k}\b` matches `cs` at start
index `i`. -/
def standaloneAt (cs : List Char) (k i : Nat) : Bool :=
  ((cs.drop i).take k).length = k
    && ((cs.drop i).take k).all reDigit
    && (i = 0 || !(wordAt (cs.get? (i - 1))))
    && !(wordAt (cs.get? (i + k)))

/-- Scan indices `i, i+1, …` (at most `fuel` of them) for the first one
satisfying `p` — the leftmost-match rule of `re.search`. -/
def scanFirst (p : Nat → Bool) (i fuel : Nat) : Option Nat :=
  match fuel with
  | 0 => none
  | fuel + 1 => if p i then some i else scanFirst p (i + 1) fuel

/-- Index of the first standalone `k`-digit token of `cs`
(`re.search(r"\b(\d{k})\b", text)`), if any. -/
def findStandalone (k : Nat) (cs : List Char) : Option Nat :=
  scanFirst (standaloneAt cs k) 0 (cs.length + 1)

/-- The group captured by `re.search(r"\b(\d{k})\b", text)`. -/
def findToken (k : Nat) (cs : List Char) : Option (List Char) :=
  (findStandalone k cs).map (fun i => (cs.drop i).take k)

/-- The `mode == "legacy"` branch of `process_ocr_text`: 9-digit token,
else 8-digit left-padded with `"0"`, else 7-digit with `"00"`, else
6-digit with `"000"`, else `None`. -/
def legacyExtract (cs : List Char) : Option (List Char) :=
  match findToken 9 cs with
  | some t => some t
  | none =>
    match findToken 8 cs with
    | some t => some ('0' :: t)
    | none =>
      match findToken 7 cs with
      | some t => some ('0' :: '0' :: t)
      | none =>
        match findToken 6 cs with
        | some t => some ('0' :: '0' :: '0' :: t)
        | none => none

/-- Maximal contiguous digit runs of `cs` — `re.findall(r"\d+", text)` —
with the run currently being read carried reversed in `acc`. -/
def digitRunsAux : List Char → List Char → List (List Char)
  | [], acc => if acc = [] then [] else [acc.reverse]
  | c :: rest, acc =>
    if reDigit c then digitRunsAux rest (c :: acc)
    else if acc = [] then digitRunsAux rest []
    else acc.reverse :: digitRunsAux rest []

/-- Maximal contiguous digit runs of `cs` — `re.findall(r"\d+", text)`. -/
def digitRuns (cs : List Char) : List (List Char) :=
  digitRunsAux cs []

/-- Result of `process_ocr_text`: a single string or a list of strings. -/
inductive OcrRes where
  | str (s : String)
  | list (l : List String)
  deriving DecidableEq, Repr

/-- The regex engine used for the `email` and `custom` modes is external
to the embedding; `reFindall pat text = none` models `re.error` (invalid
pattern), `some ms` models `re.findall(pat, text) = ms`. -/
def ReOracle : Type := String → String → Option (List String)

/-- `process_ocr_text(text, mode, pattern)` (image_ocr.py lines 122-197).
`re` is the regex-engine oracle for the `email`/`custom` branches. -/
def processOcrText (re : ReOracle) (text mode pattern : String) : Option OcrRes :=
  if text = "" then none
  else if mode = "all_text" then some (.str (pyStrip text))
  else if mode = "numbers" then
    let numbers := (digitRuns text.data).map String.mk
    if numbers = [] then none else some (.list numbers)
  else if mode = "email" then
    match re "\\b[A-Za-z0-9._%+-]+@[A-Za-z0-9.-]+\\.[A-Z|a-z]\x7b2,\x7d\\b" text with
    | some emails => if emails = [] then none else some (.list emails)
    | none => none
  else if mode = "custom" then
    if pattern = "" then none
    else
      match re pattern text with
      | some ms => if ms = [] then none else some (.list ms)
      | none => none
  else if mode = "legacy" then
    (legacyExtract text.data).map (fun t => .str (String.mk t))
  else none

/-- A fixed trivial regex oracle, for closed evaluations on branches that
never reach it. -/
def noRe : ReOracle := fun _ _ => some []

/-! ## `match_template` (Macro/image_ocr.py lines 40-104)

The function returns `(ok, max_val, top_left, width, height)`.  Exceptions
in the body (missing OpenCV, decode failure, a raising `matchTemplate`
call) are caught and mapped to the not-comparable tuple; the embedding
makes each failure source an explicit oracle field so the function is
total. -/

/-- Environment of `match_template`: the pieces supplied by OpenCV and the
file system.  `imread = none` models `cv2.imread` returning `None`
(decode failure); `corrFails` models `cv2.matchTemplate`/`minMaxLoc`
raising; `corr x y` is the `TM_CCOEFF_NORMED` correlation surface value at
placement `(x, y)` of the reference inside the capture. -/
structure MatchEnv where
  cv2Ok : Bool
  imread : Option (Nat × Nat)
  corrFails : Bool
  corr : Nat → Nat → ℚ

/-- All placements `(x, y)` of an `rw × rh` reference inside an `sw × sh`
capture: the index grid of the correlation result matrix, which has
`sw - rw + 1` columns and `sh - rh + 1` rows when the reference fits. -/
def resGrid (cols rows : Nat) : List (Nat × Nat) :=
  (List.range rows).flatMap (fun y => (List.range cols).map (fun x => (x, y)))

/-- `cv2.minMaxLoc`'s max location: the first grid position attaining the
maximal value of `f` (the exact tie-break does not matter to any claim;
first-attained mirrors a row-major scan). -/
def minMaxLocMax (f : Nat → Nat → ℚ) (cols rows : Nat) : Nat × Nat :=
  (resGrid cols rows).foldl
    (fun best p => if f p.1 p.2 > f best.1 best.2 then p else best) (0, 0)

/-- `match_template(reference_path, screenshot_region)` over a capture of
width `sw` and height `sh`.  Return order `(ok, max_val, top_left, w, h)`
as in the source. -/
def matchTemplate (env : MatchEnv) (sw sh : Nat) :
    Bool × ℚ × Option (Nat × Nat) × Nat × Nat :=
  if ¬ env.cv2Ok then
    (false, 0, none, 0, 0)
  else
    match env.imread with
    | none => (false, 0, none, 0, 0)
    | some (rh, rw) =>
      if rh > sh ∨ rw > sw then
        (false, 0, none, rw, rh)
      else if env.corrFails then
        (false, 0, none, 0, 0)
      else
        let loc := minMaxLocMax env.corr (sw - rw + 1) (sh - rh + 1)
        (true, env.corr loc.1 loc.2, some loc, rw, rh)

/-- The screen-center computation of `_execute_img_check` for a positive
match (`executor.py` lines 495-496): Python `int(left + tl + w / 2)`,
which for non-negative integer inputs equals `left + tl + w / 2` with
truncating `Nat` division. -/
def clickFoundCenter (left top tlx tly tw th : Nat) : Nat × Nat :=
  (left + tlx + tw / 2, top + tly + th / 2)

/-! ## `MacroExecutor` (Macro/executor.py)

The engine communicates only through side effects (callbacks, input
simulation, sleeps); a run is embedded as the trace of those effects.
The cooperative cancellation flag `self._running` is set `True` once at
the start of `run` and can only be set `False` by `stop()`; its reads
inside the `try` block of `run` are numbered from 0 and modelled by an
oracle giving the read index from which a stop request is visible. -/

/-- One observable effect of the engine. -/
inductive Ev where
  | status (msg : String)          -- `self._status(...)` → status callback
  | errorCb (msg : String)         -- `self._error_cb(...)`
  | done (ok : Bool)               -- `self._done_cb(...)`
  | dispatch (loopIdx actIdx : Nat)  -- entry into `self._execute_action`
  | prim (name : String)           -- a pyautogui/pyperclip primitive call
  | logMsg (msg : String)          -- `print` of a swallowed error
  | hardSleep (seconds : ℚ)        -- uninterruptible `time.sleep`
  | sleepReq (seconds : ℚ)         -- `self._sleep_with_checks(seconds)`
  deriving DecidableEq, Repr

/-- The action vocabulary reaching `_execute_action` that the claims
exercise.  Python field values that may fail to unpack or coerce are
modelled by a `parseOk` flag (`click`/`drag` unpack + `int()`, `key`'s
`int(count)`/`float(interval)`), and `delay`'s duration by an `Option`
(`None` = `float()` failed, which the handler defaults to `0.0`).
`paste_list` is the tag recorded by the UI layer (`ui.py`
`record_paste_list`); `_execute_action` has no branch for it. -/
inductive Act where
  | click (parseOk : Bool)
  | drag (parseOk : Bool)
  | delay (seconds : Option ℚ)
  | copy
  | paste
  | hotkey (keys : List String)
  | key (name : String) (parseOk : Bool)
  | pasteList (items : List String)
  | other (tag : String)
  deriving DecidableEq, Repr

/-- `_execute_action` (executor.py lines 225-260) together with the
per-action handlers it dispatches to.  `.error msg` models an exception
propagating out of the handler; `.ok evs` a normal return emitting `evs`.
`kb` is `pyautogui.KEYBOARD_KEYS`. -/
def dispatchAct (kb : List String) : Act → Except String (List Ev)
  | .click true => .ok [.prim "click"]
  | .click false => .error "Error executing click"
  | .drag true => .ok [.prim "mouseDown", .prim "moveTo", .prim "mouseUp"]
  | .drag false => .error "Error executing drag"
  | .delay (some s) => .ok [.sleepReq s]
  | .delay none => .ok [.sleepReq 0]
  | .copy => .ok [.prim "hotkey ctrl c"]
  | .paste => .ok [.prim "hotkey ctrl v"]
  | .hotkey [] => .ok []
  | .hotkey (_ :: _) => .ok [.prim "hotkey"]
  | .key name true =>
    if kb ≠ [] ∧ pyLower name ∉ kb then
      .ok [.logMsg ("Key press error: Unsupported key: " ++ pyLower name)]
    else
      .ok [.prim ("press " ++ pyLower name)]
  | .key _ false => .error "Malformed key action"
  | .pasteList _ => .ok [.status "Unknown action type: paste_list"]
  | .other tag => .ok [.status ("Unknown action type: " ++ tag)]

/-- The executor's constructor state (executor.py lines 77-92): the action
list is copied and the loop count coerced with `max(1, int(loop_count))`. -/
structure MacroExecutor where
  actions : List Act
  loopCount : Nat
  deriving DecidableEq, Repr

/-- `MacroExecutor.__init__`. -/
def MacroExecutor.init (actions : List Act) (loopCount : Int) : MacroExecutor :=
  ⟨actions, (max 1 loopCount).toNat⟩

/-- `stop()` (executor.py lines 103-109): unconditionally sets the running
flag to `False`, whatever its current value. -/
def stopFlag (_running : Bool) : Bool := false

/-- Value of `self._running` at its `k`-th read inside the `try` block of
`run`: `true` until the read index at which a `stop()` request becomes
visible, `false` from then on.  `stopAt = none` models a run that is never
stopped; `stopAt = some n` a stop landing before the `n`-th read. -/
def flagAt (stopAt : Option Nat) (k : Nat) : Bool :=
  match stopAt with
  | none => true
  | some n => k < n

/-- The countdown loop of `run` (executor.py lines 138-145) with `i`
remaining ticks: at each tick read the flag; if cleared, emit the
cancellation status and call the done callback (the `finally` block will
fire a second time on the way out); otherwise announce and hard-sleep one
second.  Returns `(events, next read index, completed?)`. -/
def countdown (stopAt : Option Nat) : Nat → Nat → List Ev × Nat × Bool
  | 0, k => ([], k, true)
  | i + 1, k =>
    if flagAt stopAt k then
      (Ev.status ("Starting in " ++ toString (i + 1) ++ "...") :: Ev.hardSleep 1 ::
         (countdown stopAt i (k + 1)).1,
       (countdown stopAt i (k + 1)).2)
    else
      ([Ev.status "Macro start cancelled.", Ev.done false], k + 1, false)

/-- The inner `for action in self.actions` loop of `run` (executor.py
lines 156-162): `li` is the loop index, `ai` the index of the next action,
`cnt` the running `action_count`, `total` the announced total, `k` the
next flag-read index.  Returns `(events, final count, next read index,
raised exception message if any)`. -/
def innerLoop (kb : List String) (stopAt : Option Nat) (li : Nat) :
    List Act → Nat → Nat → Nat → Nat → List Ev × Nat × Nat × Option String
  | [], _, cnt, _, k => ([], cnt, k, none)
  | a :: rest, ai, cnt, total, k =>
    if flagAt stopAt k then
      let evs₀ := [Ev.status ("Action " ++ toString (cnt + 1) ++ "/" ++ toString total),
                   Ev.dispatch li ai]
      match dispatchAct kb a with
      | .error msg => (evs₀, cnt + 1, k + 1, some msg)
      | .ok hevs =>
        let r := innerLoop kb stopAt li rest (ai + 1) (cnt + 1) total (k + 1)
        (evs₀ ++ hevs ++ r.1, r.2)
    else
      ([], cnt, k + 1, none)

/-- The outer `for loop_index in range(self.loop_count)` loop of `run`
(executor.py lines 150-162), with `remaining` iterations left and
`li = loopCount - remaining` the next loop index. -/
def outerLoop (kb : List String) (stopAt : Option Nat) (acts : List Act)
    (total loopCount : Nat) :
    Nat → Nat → Nat → Nat → List Ev × Nat × Nat × Option String
  | 0, _, cnt, k => ([], cnt, k, none)
  | remaining + 1, li, cnt, k =>
    if flagAt stopAt k then
      let ev₀ := Ev.status ("Executing loop " ++ toString (li + 1) ++ "/" ++ toString loopCount)
      let ri := innerLoop kb stopAt li acts 0 cnt total (k + 1)
      let ro := outerLoop kb stopAt acts total loopCount remaining (li + 1) ri.2.1 ri.2.2.1
      ri.2.2.2.elim (ev₀ :: (ri.1 ++ ro.1), ro.2)
        (fun msg => (ev₀ :: ri.1, ri.2.1, ri.2.2.1, some msg))
    else
      ([], cnt, k + 1, none)

/-- The countdown of one `run` (ticks 3,2,1; flag reads 0,1,2). -/
def runCd (stopAt : Option Nat) : List Ev × Nat × Bool :=
  countdown stopAt 3 0

/-- The main loop of one `run`, entered after a completed countdown: all
`loopCount` iterations from loop index 0, with `action_count` starting at
0, `total_actions = len(actions) * loop_count`, and the flag reads
continuing where the countdown left off. -/
def runOl (m : MacroExecutor) (kb : List String) (stopAt : Option Nat) :
    List Ev × Nat × Nat × Option String :=
  outerLoop kb stopAt m.actions (m.actions.length * m.loopCount) m.loopCount
    m.loopCount 0 0 (runCd stopAt).2.1

/-- `run()` (executor.py lines 115-179) as a trace.  `initialRunning` is
the value of `self._running` when `run` is entered (set by a concurrent
run of the same instance; `False` on a fresh instance, also right after
`stop()`).  Returns the event trace and the final value of the running
flag.  On the cancelled-countdown path the `return` sits inside `try`, so
the `finally` block still runs, clears the flag and fires the done
callback once more with `completed_ok` still `False`. -/
def MacroExecutor.run (m : MacroExecutor) (kb : List String)
    (stopAt : Option Nat) (initialRunning : Bool) : List Ev × Bool :=
  if m.actions = [] then
    ([.status "No actions to execute.", .done false], initialRunning)
  else if initialRunning then
    ([.status "Macro is already running.", .done false], initialRunning)
  else if (runCd stopAt).2.2 = false then
    ((runCd stopAt).1 ++ [Ev.done false], false)
  else
    (runOl m kb stopAt).2.2.2.elim
      (if flagAt stopAt (runOl m kb stopAt).2.2.1 then
        ((runCd stopAt).1 ++ (runOl m kb stopAt).1 ++
          [Ev.status "Macro completed successfully!", Ev.done true], false)
      else
        ((runCd stopAt).1 ++ (runOl m kb stopAt).1 ++ [Ev.done false], false))
      (fun msg =>
        ((runCd stopAt).1 ++ (runOl m kb stopAt).1 ++
          [Ev.status ("Fatal error during macro execution: " ++ msg),
           Ev.errorCb ("Fatal error during macro execution: " ++ msg),
           Ev.done false], false))

/-- The done-callback invocations of a trace, in order. -/
def doneEvents (tr : List Ev) : List Bool :=
  tr.filterMap (fun e => match e with | .done b => some b | _ => none)

/-- The input-simulation primitive calls of a trace, in order. -/
def primEvents (tr : List Ev) : List String :=
  tr.filterMap (fun e => match e with | .prim s => some s | _ => none)

/-- The dispatch attempts of a trace, in order, as (loop index, action
index) pairs. -/
def dispatchEvents (tr : List Ev) : List (Nat × Nat) :=
  tr.filterMap (fun e => match e with | .dispatch li ai => some (li, ai) | _ => none)

/-- The (loop index, action index) pairs of one loop iteration `li`,
starting at action index `ai`, for `len` further actions. -/
def rowIdx (li ai : Nat) : Nat → List (Nat × Nat)
  | 0 => []
  | len + 1 => (li, ai) :: rowIdx li (ai + 1) len

/-- The (loop index, action index) pairs of `rem` complete loop
iterations starting at loop index `li`, over `len` actions each. -/
def lexEnumFrom (li len : Nat) : Nat → List (Nat × Nat)
  | 0 => []
  | rem + 1 => rowIdx li 0 len ++ lexEnumFrom (li + 1) len rem

/-- All (loop index, action index) pairs of a complete run, in execution
order: loops `0..n-1`, and within each loop the action indices `0..len-1`. -/
def lexEnum (n len : Nat) : List (Nat × Nat) :=
  lexEnumFrom 0 len n

/-- Whether dispatching `a` raises (its handler lets an exception
propagate). -/
def raisesAct (kb : List String) (a : Act) : Bool :=
  match dispatchAct kb a with
  | .error _ => true
  | .ok _ => false

/-! ## The `img_check` wait loop (executor.py lines 463-477) and
`_sleep_with_checks` (lines 191-198) -/

/-- Oracle for one `img_check` wait: `stopAt` numbers the wait loop's own
`while self._running` reads; `matchAt n` is the `(ok, score)` pair of the
`n`-th `capture_and_match()`; `timeoutAt n` whether
`time.time() - start_time >= timeout` at the check following attempt `n`. -/
structure WaitEnv where
  stopAt : Option Nat
  matchAt : Nat → Bool × ℚ
  timeoutAt : Nat → Bool

/-- Events of the wait loop: a match attempt, or an interruptible sleep
request of the given duration. -/
inductive WEv where
  | attempt (n : Nat) (ok : Bool) (score : ℚ)
  | wsleep (seconds : ℚ)
  deriving DecidableEq, Repr

/-- The `while self._running` wait loop of `_execute_img_check` for
`wait=True`.  Between a failed comparable attempt that has not hit the
timeout and the next attempt, the source requests
`self._sleep_with_checks(max(0.01, interval))`.  `fuel` bounds the
unrolling (the source loop can run unboundedly when `timeout == 0`);
every claim proved below holds for every fuel.  Returns the trace and
`image_found`. -/
def imgWaitLoop (env : WaitEnv) (threshold interval timeout : ℚ) :
    Nat → Nat → Nat → List WEv × Bool
  | 0, _, _ => ([], false)
  | fuel + 1, n, k =>
    if flagAt env.stopAt k then
      if (env.matchAt n).1 ∧ (env.matchAt n).2 ≥ threshold then
        ([WEv.attempt n (env.matchAt n).1 (env.matchAt n).2], true)
      else if ¬ (env.matchAt n).1 then
        ([WEv.attempt n (env.matchAt n).1 (env.matchAt n).2], false)
      else if timeout > 0 ∧ env.timeoutAt n then
        ([WEv.attempt n (env.matchAt n).1 (env.matchAt n).2], false)
      else
        (WEv.attempt n (env.matchAt n).1 (env.matchAt n).2 ::
           WEv.wsleep (max 0.01 interval) ::
           (imgWaitLoop env threshold interval timeout fuel (n + 1) (k + 1)).1,
         (imgWaitLoop env threshold interval timeout fuel (n + 1) (k + 1)).2)
    else ([], false)

/-- `_sleep_with_checks(seconds)`: sleep `max(0.0, seconds)` in increments
of `min(0.05, remaining)`, re-reading the running flag (index `k`) before
each increment.  Returns the list of slept increments.  `fuel` bounds the
unrolling. -/
def sleepWithChecks (stopAt : Option Nat) : Nat → ℚ → Nat → List ℚ
  | 0, _, _ => []
  | fuel + 1, remaining, k =>
    if remaining > 0 then
      if flagAt stopAt k then
        let dt := min 0.05 remaining
        dt :: sleepWithChecks stopAt fuel (remaining - dt) (k + 1)
      else []
    else []

/-- A concrete wait environment: one comparable low-score attempt, then a
stop request visible from the second flag read on; no timeout. -/
def c4Env : WaitEnv :=
  ⟨some 1, fun _ => (true, 1/2), fun _ => false⟩

/-! ### Leftmost-match lemmas for the embedded `re.search` -/

theorem scanFirst_some {p : Nat → Bool} {i fuel j : Nat}
    (h : scanFirst p i fuel = some j) :
    p j = true ∧ i ≤ j ∧ ∀ m, i ≤ m → m < j → p m = false := by
  induction fuel generalizing i with
  | zero => simp [scanFirst] at h
  | succ fuel ih =>
    rw [scanFirst] at h
    by_cases hp : p i = true
    · simp [hp] at h
      subst h
      exact ⟨hp, le_refl _, fun m h1 h2 => absurd (lt_of_le_of_lt h1 h2) (lt_irrefl _)⟩
    · simp [hp] at h
      obtain ⟨hj, hij, hmin⟩ := ih h
      refine ⟨hj, le_trans (Nat.le_succ i) hij, fun m h1 h2 => ?_⟩
      rcases Nat.eq_or_lt_of_le h1 with rfl | h1'
      · exact Bool.eq_false_iff.mpr hp
      · exact hmin m h1' h2

theorem scanFirst_complete {p : Nat → Bool} {i fuel j : Nat}
    (hij : i ≤ j) (hlt : j < i + fuel) (hp : p j = true) :
    ∃ m, scanFirst p i fuel = some m := by
  induction fuel generalizing i with
  | zero => omega
  | succ fuel ih =>
    rw [scanFirst]
    by_cases hpi : p i = true
    · exact ⟨i, by simp [hpi]⟩
    · have hne : i ≠ j := fun h => hpi (h ▸ hp)
      have : i + 1 ≤ j := Nat.lt_of_le_of_ne hij hne
      simpa [hpi] using ih this (by omega)

/-- `standaloneAt` can only hold at an index inside the string (for a
nonempty pattern). -/
theorem standaloneAt_lt_length {cs : List Char} {k i : Nat} (hk : 0 < k)
    (h : standaloneAt cs k i = true) : i ≤ cs.length := by
  by_contra hgt
  push_neg at hgt
  have hdrop : cs.drop i = [] := List.drop_eq_nil_of_le (le_of_lt hgt)
  simp [standaloneAt, hdrop] at h
  omega

/-- `findStandalone` returns exactly the first (least-index) standalone
`k`-digit token, mirroring the leftmost-match rule of `re.search`. -/
theorem findStandalone_iff {cs : List Char} {k i : Nat} (hk : 0 < k) :
    findStandalone k cs = some i ↔
      standaloneAt cs k i = true ∧ ∀ j, j < i → standaloneAt cs k j = false := by
  constructor
  · intro h
    obtain ⟨hp, _, hmin⟩ := scanFirst_some h
    exact ⟨hp, fun j hj => hmin j (Nat.zero_le j) hj⟩
  · rintro ⟨hp, hmin⟩
    have hle : i ≤ cs.length := standaloneAt_lt_length hk hp
    obtain ⟨m, hm⟩ := scanFirst_complete (Nat.zero_le i)
      (show i < 0 + (cs.length + 1) by omega) hp
    obtain ⟨hpm, _, hminm⟩ := scanFirst_some hm
    rcases lt_trichotomy m i with h1 | h1 | h1
    · exact absurd hpm (by simp [hmin m h1])
    · exact h1 ▸ hm
    · exact absurd hp (by simp [hminm i (Nat.zero_le i) h1])

/-! ### Template-matcher lemmas -/

theorem mem_resGrid {cols rows : Nat} {p : Nat × Nat} :
    p ∈ resGrid cols rows ↔ p.1 < cols ∧ p.2 < rows := by
  cases p with
  | mk x y =>
    simp only [resGrid, List.mem_flatMap, List.mem_map, List.mem_range]
    constructor
    · rintro ⟨b, hb, x', hx', h⟩
      cases h
      exact ⟨hx', hb⟩
    · rintro ⟨hx, hy⟩
      exact ⟨y, hy, x, hx, rfl⟩

theorem foldl_best_mem {α : Type} (f : α → ℚ) :
    ∀ (l : List α) (b : α),
      l.foldl (fun best p => if f p > f best then p else best) b = b ∨
      l.foldl (fun best p => if f p > f best then p else best) b ∈ l := by
  intro l
  induction l with
  | nil => intro b; left; rfl
  | cons a rest ih =>
    intro b
    simp only [List.foldl_cons]
    by_cases h : f a > f b
    · simp only [if_pos h]
      rcases ih a with h' | h'
      · right; rw [h']; exact List.mem_cons_self a rest
      · right; exact List.mem_cons_of_mem a h'
    · simp only [if_neg h]
      rcases ih b with h' | h'
      · left; exact h'
      · right; exact List.mem_cons_of_mem a h'

theorem minMaxLocMax_mem (f : Nat → Nat → ℚ) (cols rows : Nat)
    (hc : 0 < cols) (hr : 0 < rows) :
    minMaxLocMax f cols rows ∈ resGrid cols rows := by
  have h := foldl_best_mem (fun p : Nat × Nat => f p.1 p.2) (resGrid cols rows) (0, 0)
  rcases h with h | h
  · rw [show minMaxLocMax f cols rows =
        (resGrid cols rows).foldl
          (fun best p => if f p.1 p.2 > f best.1 best.2 then p else best) (0, 0) from rfl]
    rw [h]
    exact mem_resGrid.mpr ⟨hc, hr⟩
  · exact h

/-- C6: `match_template` never raises to the caller: a reference larger
than the capture in either dimension yields
`(found = false, score = 0, top_left = none)` together with the
reference's true width and height, and a missing OpenCV, a decode failure
or a raising matching call each yield the not-comparable result instead of
an exception (the embedded function is total: every failure source maps to
a returned tuple). -/
theorem c6_matchTemplate_never_raises (env : MatchEnv) (sw sh : Nat) :
    (¬ env.cv2Ok → matchTemplate env sw sh = (false, 0, none, 0, 0)) ∧
    (env.imread = none → matchTemplate env sw sh = (false, 0, none, 0, 0)) ∧
    (∀ rh rw, env.cv2Ok → env.imread = some (rh, rw) → (rh > sh ∨ rw > sw) →
      matchTemplate env sw sh = (false, 0, none, rw, rh)) ∧
    (env.corrFails → (matchTemplate env sw sh).1 = false ∧
      (matchTemplate env sw sh).2.1 = 0 ∧ (matchTemplate env sw sh).2.2.1 = none) := by
  refine ⟨?_, ?_, ?_, ?_⟩
  · intro h
    simp [matchTemplate, h]
  · intro h
    by_cases hcv : env.cv2Ok
    · simp [matchTemplate, hcv, h]
    · simp [matchTemplate, hcv]
  · intro rh rw hcv himg hbig
    simp [matchTemplate, hcv, himg, hbig]
  · intro hf
    by_cases hcv : env.cv2Ok
    · rcases himg : env.imread with _ | ⟨rh, rw⟩
      · simp [matchTemplate, hcv, himg]
      · by_cases hbig : rh > sh ∨ rw > sw
        · simp [matchTemplate, hcv, himg, hbig]
        · simp [matchTemplate, hcv, himg, hbig, hf]
    · simp [matchTemplate, hcv]

/-- C6 witness. -/
theorem c6_matchTemplate_never_raises_witness :
    matchTemplate ⟨true, some (5, 7), false, fun _ _ => 0⟩ 4 4 = (false, 0, none, 7, 5) :=
  (c6_matchTemplate_never_raises ⟨true, some (5, 7), false, fun _ _ => 0⟩ 4 4).2.2.1
    5 7 rfl rfl (Or.inl (by omega))

/-- C10: whenever `match_template` returns `ok = true`, the returned
`top_left` is a concrete pair whose (non-negative) components place the
whole template inside the capture, and the returned width and height are
the decoded reference image's dimensions — the invariant the engine's
`click_found` center computation (`clickFoundCenter`) relies on. -/
theorem c10_match_location_invariant (env : MatchEnv) (sw sh : Nat)
    (s : ℚ) (tl : Option (Nat × Nat)) (w h : Nat)
    (hrun : matchTemplate env sw sh = (true, s, tl, w, h)) :
    env.imread = some (h, w) ∧
    ∃ x y, tl = some (x, y) ∧ x + w ≤ sw ∧ y + h ≤ sh ∧
      ∀ left top, clickFoundCenter left top x y w h =
        (left + x + w / 2, top + y + h / 2) := by
  by_cases hcv : env.cv2Ok
  · rcases himg : env.imread with _ | ⟨rh, rw⟩
    · simp [matchTemplate, hcv, himg] at hrun
    · by_cases hbig : rh > sh ∨ rw > sw
      · simp [matchTemplate, hcv, himg, hbig] at hrun
      · by_cases hf : env.corrFails
        · simp [matchTemplate, hcv, himg, hbig, hf] at hrun
        · have hred : matchTemplate env sw sh =
              (true,
               env.corr (minMaxLocMax env.corr (sw - rw + 1) (sh - rh + 1)).1
                        (minMaxLocMax env.corr (sw - rw + 1) (sh - rh + 1)).2,
               some (minMaxLocMax env.corr (sw - rw + 1) (sh - rh + 1)), rw, rh) := by
            simp [matchTemplate, hcv, himg, hbig, hf]
          rw [hred] at hrun
          simp only [Prod.mk.injEq] at hrun
          obtain ⟨-, -, htl, hw, hh⟩ := hrun
          push_neg at hbig
          obtain ⟨hsh, hsw⟩ := hbig
          have hmem := minMaxLocMax_mem env.corr (sw - rw + 1) (sh - rh + 1)
            (Nat.succ_pos _) (Nat.succ_pos _)
          obtain ⟨hx, hy⟩ := mem_resGrid.mp hmem
          refine ⟨by rw [hw, hh],
            (minMaxLocMax env.corr (sw - rw + 1) (sh - rh + 1)).1,
            (minMaxLocMax env.corr (sw - rw + 1) (sh - rh + 1)).2, ?_, by omega, by omega,
            fun left top => rfl⟩
          rw [← htl]
  · simp [matchTemplate, hcv] at hrun

/-- C10 witness. -/
theorem c10_match_location_invariant_witness :
    (MatchEnv.mk true (some (2, 3)) false (fun _ _ => 0)).imread = some (2, 3) ∧
    ∃ x y, (some ((0 : Nat), (0 : Nat))) = some (x, y) ∧ x + 3 ≤ 5 ∧ y + 2 ≤ 4 ∧
      ∀ left top, clickFoundCenter left top x y 3 2 =
        (left + x + 3 / 2, top + y + 2 / 2) :=
  c10_match_location_invariant (MatchEnv.mk true (some (2, 3)) false (fun _ _ => 0))
    5 4 0 (some (0, 0)) 3 2 (by rfl)

/-! ### Execution-engine loop lemmas -/

theorem flagAt_false_le {stopAt : Option Nat} {k k' : Nat}
    (h : flagAt stopAt k = false) (hle : k ≤ k') : flagAt stopAt k' = false := by
  cases stopAt with
  | none => simp [flagAt] at h
  | some n =>
    simp only [flagAt, decide_eq_false_iff_not, not_lt] at h ⊢
    omega

theorem dispatchEvents_append (a b : List Ev) :
    dispatchEvents (a ++ b) = dispatchEvents a ++ dispatchEvents b :=
  List.filterMap_append ..

theorem doneEvents_append (a b : List Ev) :
    doneEvents (a ++ b) = doneEvents a ++ doneEvents b :=
  List.filterMap_append ..

/-- Events emitted by a successfully returning handler contain no
dispatch markers and no done-callback invocations. -/
theorem dispatchAct_ok_events {kb : List String} {a : Act} {evs : List Ev}
    (h : dispatchAct kb a = .ok evs) :
    dispatchEvents evs = [] ∧ doneEvents evs = [] := by
  cases a with
  | click p =>
    cases p
    · simp [dispatchAct] at h
    · simp only [dispatchAct, Except.ok.injEq] at h
      subst h; exact ⟨rfl, rfl⟩
  | drag p =>
    cases p
    · simp [dispatchAct] at h
    · simp only [dispatchAct, Except.ok.injEq] at h
      subst h; exact ⟨rfl, rfl⟩
  | delay s =>
    cases s <;> simp only [dispatchAct, Except.ok.injEq] at h <;>
      (subst h; exact ⟨rfl, rfl⟩)
  | copy =>
    simp only [dispatchAct, Except.ok.injEq] at h
    subst h; exact ⟨rfl, rfl⟩
  | paste =>
    simp only [dispatchAct, Except.ok.injEq] at h
    subst h; exact ⟨rfl, rfl⟩
  | hotkey ks =>
    cases ks <;> simp only [dispatchAct, Except.ok.injEq] at h <;>
      (subst h; exact ⟨rfl, rfl⟩)
  | key name p =>
    cases p
    · simp [dispatchAct] at h
    · simp only [dispatchAct] at h
      split at h <;> (simp only [Except.ok.injEq] at h; subst h; exact ⟨rfl, rfl⟩)
  | pasteList items =>
    simp only [dispatchAct, Except.ok.injEq] at h
    subst h; exact ⟨rfl, rfl⟩
  | other tag =>
    simp only [dispatchAct, Except.ok.injEq] at h
    subst h; exact ⟨rfl, rfl⟩

/-- The inner action loop: its dispatch markers form a prefix of the
remaining row `(li, ai), (li, ai+1), …`; it emits no done events; the
flag-read index only grows; and it either raised, dispatched the full
row, or stopped with the flag observed clear. -/
theorem innerLoop_spec (kb : List String) (stopAt : Option Nat) (li : Nat) :
    ∀ (acts : List Act) (ai cnt total k : Nat),
      dispatchEvents (innerLoop kb stopAt li acts ai cnt total k).1 <+:
        rowIdx li ai acts.length ∧
      doneEvents (innerLoop kb stopAt li acts ai cnt total k).1 = [] ∧
      k ≤ (innerLoop kb stopAt li acts ai cnt total k).2.2.1 ∧
      ((∃ msg, (innerLoop kb stopAt li acts ai cnt total k).2.2.2 = some msg) ∨
       dispatchEvents (innerLoop kb stopAt li acts ai cnt total k).1 =
         rowIdx li ai acts.length ∨
       ((innerLoop kb stopAt li acts ai cnt total k).2.2.2 = none ∧
        flagAt stopAt (innerLoop kb stopAt li acts ai cnt total k).2.2.1 = false)) := by
  intro acts
  induction acts with
  | nil =>
    intro ai cnt total k
    refine ⟨List.nil_prefix, rfl, le_refl _, Or.inr (Or.inl rfl)⟩
  | cons a rest ih =>
    intro ai cnt total k
    by_cases hf : flagAt stopAt k = true
    · rw [show (innerLoop kb stopAt li (a :: rest) ai cnt total k) =
          (if flagAt stopAt k then
            match dispatchAct kb a with
            | .error msg =>
              ([Ev.status ("Action " ++ toString (cnt + 1) ++ "/" ++ toString total),
                Ev.dispatch li ai], cnt + 1, k + 1, some msg)
            | .ok hevs =>
              let r := innerLoop kb stopAt li rest (ai + 1) (cnt + 1) total (k + 1)
              ([Ev.status ("Action " ++ toString (cnt + 1) ++ "/" ++ toString total),
                Ev.dispatch li ai] ++ hevs ++ r.1, r.2)
          else ([], cnt, k + 1, none)) from rfl]
      rw [if_pos hf]
      cases hd : dispatchAct kb a with
      | error msg =>
        refine ⟨?_, rfl, Nat.le_succ k, Or.inl ⟨msg, rfl⟩⟩
        show [(li, ai)] <+: (li, ai) :: rowIdx li (ai + 1) rest.length
        exact ⟨rowIdx li (ai + 1) rest.length, rfl⟩
      | ok hevs =>
        obtain ⟨hde, hdo⟩ := dispatchAct_ok_events hd
        obtain ⟨⟨t, ht⟩, ihdone, ihk, ihcase⟩ := ih (ai + 1) (cnt + 1) total (k + 1)
        simp only
        constructor
        · refine ⟨t, ?_⟩
          rw [dispatchEvents_append, dispatchEvents_append, hde]
          show ([(li, ai)] ++ ([] ++
            dispatchEvents (innerLoop kb stopAt li rest (ai + 1) (cnt + 1) total (k + 1)).1)) ++ t
            = (li, ai) :: rowIdx li (ai + 1) rest.length
          simp only [List.nil_append, List.singleton_append, List.cons_append]
          rw [ht]
        refine ⟨?_, le_trans (Nat.le_succ k) ihk, ?_⟩
        · rw [doneEvents_append, doneEvents_append, hdo, ihdone]
          rfl
        · rcases ihcase with h | h | h
          · exact Or.inl h
          · refine Or.inr (Or.inl ?_)
            rw [dispatchEvents_append, dispatchEvents_append, hde]
            show [(li, ai)] ++ ([] ++
              dispatchEvents (innerLoop kb stopAt li rest (ai + 1) (cnt + 1) total (k + 1)).1)
              = (li, ai) :: rowIdx li (ai + 1) rest.length
            simp only [List.nil_append, List.singleton_append]
            rw [h]
          · exact Or.inr (Or.inr h)
    · have hf' : flagAt stopAt k = false := Bool.not_eq_true _ ▸ (by simpa using hf)
      rw [show (innerLoop kb stopAt li (a :: rest) ai cnt total k) =
          (if flagAt stopAt k then
            match dispatchAct kb a with
            | .error msg =>
              ([Ev.status ("Action " ++ toString (cnt + 1) ++ "/" ++ toString total),
                Ev.dispatch li ai], cnt + 1, k + 1, some msg)
            | .ok hevs =>
              let r := innerLoop kb stopAt li rest (ai + 1) (cnt + 1) total (k + 1)
              ([Ev.status ("Action " ++ toString (cnt + 1) ++ "/" ++ toString total),
                Ev.dispatch li ai] ++ hevs ++ r.1, r.2)
          else ([], cnt, k + 1, none)) from rfl]
      rw [if_neg (by simp [hf'])]
      exact ⟨List.nil_prefix, rfl, Nat.le_succ k,
        Or.inr (Or.inr ⟨rfl, flagAt_false_le hf' (Nat.le_succ k)⟩)⟩

/-- The countdown: no dispatch markers; exactly one done event (`false`)
when cancelled, none when completed; the read index grows; and it always
completes when no stop request ever lands. -/
theorem countdown_spec (stopAt : Option Nat) :
    ∀ (i k : Nat),
      dispatchEvents (countdown stopAt i k).1 = [] ∧
      ((countdown stopAt i k).2.2 = true ∧ doneEvents (countdown stopAt i k).1 = [] ∨
       (countdown stopAt i k).2.2 = false ∧ doneEvents (countdown stopAt i k).1 = [false]) ∧
      k ≤ (countdown stopAt i k).2.1 ∧
      (stopAt = none → (countdown stopAt i k).2.2 = true) := by
  intro i
  induction i with
  | zero =>
    intro k
    exact ⟨rfl, Or.inl ⟨rfl, rfl⟩, le_refl _, fun _ => rfl⟩
  | succ i ih =>
    intro k
    by_cases hf : flagAt stopAt k = true
    · rw [show countdown stopAt (i + 1) k =
          (Ev.status ("Starting in " ++ toString (i + 1) ++ "...") :: Ev.hardSleep 1 ::
             (countdown stopAt i (k + 1)).1,
           (countdown stopAt i (k + 1)).2) from by rw [countdown, if_pos hf]]
      obtain ⟨ihd, ihdone, ihk, ihnone⟩ := ih (k + 1)
      exact ⟨ihd, ihdone, le_trans (Nat.le_succ k) ihk, ihnone⟩
    · rw [show countdown stopAt (i + 1) k =
          ([Ev.status "Macro start cancelled.", Ev.done false], k + 1, false) from by
        rw [countdown, if_neg hf]]
      refine ⟨rfl, Or.inr ⟨rfl, rfl⟩, Nat.le_succ k, fun hn => ?_⟩
      subst hn
      simp [flagAt] at hf

/-- The outer loop: dispatch markers form a prefix of the remaining
lexicographic enumeration; no done events; the read index grows; and it
either raised, dispatched everything, or stopped with the flag observed
clear. -/
theorem outerLoop_spec (kb : List String) (stopAt : Option Nat) (acts : List Act)
    (total loopCount : Nat) :
    ∀ (remaining li cnt k : Nat),
      dispatchEvents (outerLoop kb stopAt acts total loopCount remaining li cnt k).1 <+:
        lexEnumFrom li acts.length remaining ∧
      doneEvents (outerLoop kb stopAt acts total loopCount remaining li cnt k).1 = [] ∧
      k ≤ (outerLoop kb stopAt acts total loopCount remaining li cnt k).2.2.1 ∧
      ((∃ msg, (outerLoop kb stopAt acts total loopCount remaining li cnt k).2.2.2 = some msg) ∨
       dispatchEvents (outerLoop kb stopAt acts total loopCount remaining li cnt k).1 =
         lexEnumFrom li acts.length remaining ∨
       ((outerLoop kb stopAt acts total loopCount remaining li cnt k).2.2.2 = none ∧
        flagAt stopAt (outerLoop kb stopAt acts total loopCount remaining li cnt k).2.2.1 =
          false)) := by
  intro remaining
  induction remaining with
  | zero =>
    intro li cnt k
    exact ⟨List.nil_prefix, rfl, le_refl _, Or.inr (Or.inl rfl)⟩
  | succ remaining ih =>
    intro li cnt k
    by_cases hf : flagAt stopAt k = true
    · rw [show outerLoop kb stopAt acts total loopCount (remaining + 1) li cnt k =
          ((innerLoop kb stopAt li acts 0 cnt total (k + 1)).2.2.2.elim
            (Ev.status ("Executing loop " ++ toString (li + 1) ++ "/" ++ toString loopCount) ::
              ((innerLoop kb stopAt li acts 0 cnt total (k + 1)).1 ++
               (outerLoop kb stopAt acts total loopCount remaining (li + 1)
                 (innerLoop kb stopAt li acts 0 cnt total (k + 1)).2.1
                 (innerLoop kb stopAt li acts 0 cnt total (k + 1)).2.2.1).1),
             (outerLoop kb stopAt acts total loopCount remaining (li + 1)
               (innerLoop kb stopAt li acts 0 cnt total (k + 1)).2.1
               (innerLoop kb stopAt li acts 0 cnt total (k + 1)).2.2.1).2)
            (fun msg =>
              (Ev.status ("Executing loop " ++ toString (li + 1) ++ "/" ++ toString loopCount) ::
                (innerLoop kb stopAt li acts 0 cnt total (k + 1)).1,
               (innerLoop kb stopAt li acts 0 cnt total (k + 1)).2.1,
               (innerLoop kb stopAt li acts 0 cnt total (k + 1)).2.2.1, some msg))) from by
        rw [outerLoop, if_pos hf]]
      obtain ⟨⟨ti, hti⟩, hidone, hik, hicase⟩ :=
        innerLoop_spec kb stopAt li acts 0 cnt total (k + 1)
      cases hri : (innerLoop kb stopAt li acts 0 cnt total (k + 1)).2.2.2 with
      | some msg =>
        simp only [Option.elim]
        refine ⟨?_, by simpa [doneEvents] using hidone,
          le_trans (Nat.le_succ k) hik, Or.inl ⟨msg, rfl⟩⟩
        refine List.IsPrefix.trans ⟨ti, ?_⟩ (List.prefix_append _ _)
        simpa [dispatchEvents] using hti
      | none =>
        simp only [Option.elim]
        obtain ⟨⟨t₂, ht₂⟩, hodone, hok, hocase⟩ :=
          ih (li + 1) (innerLoop kb stopAt li acts 0 cnt total (k + 1)).2.1
            (innerLoop kb stopAt li acts 0 cnt total (k + 1)).2.2.1
        rcases hicase with ⟨msg, hmsg⟩ | hfull | ⟨-, hclear⟩
        · rw [hri] at hmsg
          exact absurd hmsg (by simp)
        · -- the inner loop dispatched its whole row; the recursion continues it
          refine ⟨?_, ?_, le_trans (Nat.le_succ k) (le_trans hik hok), ?_⟩
          · refine ⟨t₂, ?_⟩
            show dispatchEvents (Ev.status _ :: _) ++ t₂ = _
            simp only [dispatchEvents, List.filterMap_cons, List.filterMap_append]
            show (dispatchEvents _ ++ dispatchEvents _) ++ t₂ = _
            rw [hfull, List.append_assoc, ht₂]
            rfl
          · show doneEvents (Ev.status _ :: _) = []
            simp only [doneEvents, List.filterMap_cons, List.filterMap_append]
            show doneEvents _ ++ doneEvents _ = []
            rw [show doneEvents (innerLoop kb stopAt li acts 0 cnt total (k + 1)).1 = []
                from hidone, hodone]
            rfl
          · rcases hocase with h | h | h
            · exact Or.inl h
            · refine Or.inr (Or.inl ?_)
              show dispatchEvents (Ev.status _ :: _) = _
              simp only [dispatchEvents, List.filterMap_cons, List.filterMap_append]
              show dispatchEvents _ ++ dispatchEvents _ = _
              rw [hfull, h]
              rfl
            · exact Or.inr (Or.inr h)
        · -- the inner loop observed the flag clear: the recursion is a no-op
          have houter : (outerLoop kb stopAt acts total loopCount remaining (li + 1)
              (innerLoop kb stopAt li acts 0 cnt total (k + 1)).2.1
              (innerLoop kb stopAt li acts 0 cnt total (k + 1)).2.2.1).1 = [] ∧
              (outerLoop kb stopAt acts total loopCount remaining (li + 1)
                (innerLoop kb stopAt li acts 0 cnt total (k + 1)).2.1
                (innerLoop kb stopAt li acts 0 cnt total (k + 1)).2.2.1).2.2.2 = none ∧
              flagAt stopAt (outerLoop kb stopAt acts total loopCount remaining (li + 1)
                (innerLoop kb stopAt li acts 0 cnt total (k + 1)).2.1
                (innerLoop kb stopAt li acts 0 cnt total (k + 1)).2.2.1).2.2.1 = false ∧
              (innerLoop kb stopAt li acts 0 cnt total (k + 1)).2.2.1 ≤
                (outerLoop kb stopAt acts total loopCount remaining (li + 1)
                  (innerLoop kb stopAt li acts 0 cnt total (k + 1)).2.1
                  (innerLoop kb stopAt li acts 0 cnt total (k + 1)).2.2.1).2.2.1 := by
            cases remaining with
            | zero => exact ⟨rfl, rfl, hclear, le_refl _⟩
            | succ rem =>
              rw [show outerLoop kb stopAt acts total loopCount (rem + 1) (li + 1)
                    (innerLoop kb stopAt li acts 0 cnt total (k + 1)).2.1
                    (innerLoop kb stopAt li acts 0 cnt total (k + 1)).2.2.1 =
                  ([], (innerLoop kb stopAt li acts 0 cnt total (k + 1)).2.1,
                   (innerLoop kb stopAt li acts 0 cnt total (k + 1)).2.2.1 + 1, none) from by
                rw [outerLoop, if_neg (by simp [hclear])]]
              exact ⟨rfl, rfl, flagAt_false_le hclear (Nat.le_succ _), Nat.le_succ _⟩
          obtain ⟨ho1, ho2, ho3, ho4⟩ := houter
          refine ⟨?_, ?_, le_trans (Nat.le_succ k) (le_trans hik ho4), ?_⟩
          · rw [ho1]
            show dispatchEvents (Ev.status _ ::
              ((innerLoop kb stopAt li acts 0 cnt total (k + 1)).1 ++ [])) <+: _
            simp only [List.append_nil]
            refine List.IsPrefix.trans ⟨ti, ?_⟩ (List.prefix_append _ _)
            simpa [dispatchEvents] using hti
          · rw [ho1]
            show doneEvents (Ev.status _ ::
              ((innerLoop kb stopAt li acts 0 cnt total (k + 1)).1 ++ [])) = []
            simpa [doneEvents, List.append_nil] using hidone
          · exact Or.inr (Or.inr ⟨ho2, ho3⟩)
    · have hf' : flagAt stopAt k = false := by simpa using hf
      rw [show outerLoop kb stopAt acts total loopCount (remaining + 1) li cnt k =
            ([], cnt, k + 1, none) from by
          rw [outerLoop, if_neg (by simp [hf'])]]
      exact ⟨List.nil_prefix, rfl, Nat.le_succ k,
        Or.inr (Or.inr ⟨rfl, flagAt_false_le hf' (Nat.le_succ k)⟩)⟩

/-! ### Equation and auxiliary lemmas for the run structure -/

theorem innerLoop_cons_err {kb : List String} {stopAt : Option Nat} {li : Nat}
    {a : Act} {rest : List Act} {ai cnt total k : Nat} {msg : String}
    (hf : flagAt stopAt k = true) (hd : dispatchAct kb a = .error msg) :
    innerLoop kb stopAt li (a :: rest) ai cnt total k =
      ([Ev.status ("Action " ++ toString (cnt + 1) ++ "/" ++ toString total),
        Ev.dispatch li ai], cnt + 1, k + 1, some msg) := by
  rw [innerLoop, if_pos hf, hd]

theorem innerLoop_cons_ok {kb : List String} {stopAt : Option Nat} {li : Nat}
    {a : Act} {rest : List Act} {ai cnt total k : Nat} {hevs : List Ev}
    (hf : flagAt stopAt k = true) (hd : dispatchAct kb a = .ok hevs) :
    innerLoop kb stopAt li (a :: rest) ai cnt total k =
      ([Ev.status ("Action " ++ toString (cnt + 1) ++ "/" ++ toString total),
        Ev.dispatch li ai] ++ hevs ++
         (innerLoop kb stopAt li rest (ai + 1) (cnt + 1) total (k + 1)).1,
       (innerLoop kb stopAt li rest (ai + 1) (cnt + 1) total (k + 1)).2) := by
  rw [innerLoop, if_pos hf, hd]

theorem innerLoop_cons_stop {kb : List String} {stopAt : Option Nat} {li : Nat}
    {a : Act} {rest : List Act} {ai cnt total k : Nat}
    (hf : flagAt stopAt k = false) :
    innerLoop kb stopAt li (a :: rest) ai cnt total k = ([], cnt, k + 1, none) := by
  rw [innerLoop, if_neg (by simp [hf])]

theorem outerLoop_succ_go {kb : List String} {stopAt : Option Nat} {acts : List Act}
    {total loopCount remaining li cnt k : Nat} (hf : flagAt stopAt k = true) :
    outerLoop kb stopAt acts total loopCount (remaining + 1) li cnt k =
      ((innerLoop kb stopAt li acts 0 cnt total (k + 1)).2.2.2.elim
        (Ev.status ("Executing loop " ++ toString (li + 1) ++ "/" ++ toString loopCount) ::
          ((innerLoop kb stopAt li acts 0 cnt total (k + 1)).1 ++
           (outerLoop kb stopAt acts total loopCount remaining (li + 1)
             (innerLoop kb stopAt li acts 0 cnt total (k + 1)).2.1
             (innerLoop kb stopAt li acts 0 cnt total (k + 1)).2.2.1).1),
         (outerLoop kb stopAt acts total loopCount remaining (li + 1)
           (innerLoop kb stopAt li acts 0 cnt total (k + 1)).2.1
           (innerLoop kb stopAt li acts 0 cnt total (k + 1)).2.2.1).2)
        (fun msg =>
          (Ev.status ("Executing loop " ++ toString (li + 1) ++ "/" ++ toString loopCount) ::
            (innerLoop kb stopAt li acts 0 cnt total (k + 1)).1,
           (innerLoop kb stopAt li acts 0 cnt total (k + 1)).2.1,
           (innerLoop kb stopAt li acts 0 cnt total (k + 1)).2.2.1, some msg))) := by
  rw [outerLoop, if_pos hf]

theorem innerLoop_no_raise (kb : List String) (stopAt : Option Nat) (li : Nat) :
    ∀ (acts : List Act) (ai cnt total k : Nat),
      (∀ a ∈ acts, raisesAct kb a = false) →
      (innerLoop kb stopAt li acts ai cnt total k).2.2.2 = none := by
  intro acts
  induction acts with
  | nil => intro ai cnt total k _; rfl
  | cons a rest ih =>
    intro ai cnt total k hnr
    by_cases hf : flagAt stopAt k = true
    · cases hd : dispatchAct kb a with
      | error msg =>
        have ha := hnr a (List.mem_cons_self a rest)
        rw [raisesAct, hd] at ha
        simp at ha
      | ok hevs =>
        rw [innerLoop_cons_ok hf hd]
        exact ih (ai + 1) (cnt + 1) total (k + 1)
          (fun b hb => hnr b (List.mem_cons_of_mem a hb))
    · rw [innerLoop_cons_stop (by simpa using hf)]

theorem outerLoop_no_raise (kb : List String) (stopAt : Option Nat) (acts : List Act)
    (total loopCount : Nat) :
    ∀ (remaining li cnt k : Nat),
      (∀ a ∈ acts, raisesAct kb a = false) →
      (outerLoop kb stopAt acts total loopCount remaining li cnt k).2.2.2 = none := by
  intro remaining
  induction remaining with
  | zero => intro li cnt k _; rfl
  | succ remaining ih =>
    intro li cnt k hnr
    by_cases hf : flagAt stopAt k = true
    · rw [outerLoop_succ_go hf]
      rw [innerLoop_no_raise kb stopAt li acts 0 cnt total (k + 1) hnr]
      exact ih (li + 1) (innerLoop kb stopAt li acts 0 cnt total (k + 1)).2.1
        (innerLoop kb stopAt li acts 0 cnt total (k + 1)).2.2.1 hnr
    · rw [outerLoop, if_neg (by simp at hf; simp [hf])]

theorem rowIdx_length (li : Nat) : ∀ (len ai : Nat), (rowIdx li ai len).length = len := by
  intro len
  induction len with
  | zero => intro ai; rfl
  | succ len ih => intro ai; simp [rowIdx, ih (ai + 1)]

theorem lexEnumFrom_length (len : Nat) :
    ∀ (rem li : Nat), (lexEnumFrom li len rem).length = rem * len := by
  intro rem
  induction rem with
  | zero => intro li; simp [lexEnumFrom]
  | succ rem ih =>
    intro li
    simp [lexEnumFrom, rowIdx_length, ih (li + 1), Nat.succ_mul, Nat.add_comm]

theorem lexEnum_length (n len : Nat) : (lexEnum n len).length = n * len :=
  lexEnumFrom_length len n 0

/-- The four possible shapes of a run's trace on a non-empty action list
started on a fresh instance: countdown cancelled, handler raised, normal
completion, and loop cancelled. -/
theorem run_shape (m : MacroExecutor) (kb : List String) (stopAt : Option Nat)
    (hne : ¬ (m.actions = [])) :
    ((runCd stopAt).2.2 = false ∧
      m.run kb stopAt false = ((runCd stopAt).1 ++ [Ev.done false], false)) ∨
    ((runCd stopAt).2.2 = true ∧ ∃ msg, (runOl m kb stopAt).2.2.2 = some msg ∧
      m.run kb stopAt false = ((runCd stopAt).1 ++ (runOl m kb stopAt).1 ++
        [Ev.status ("Fatal error during macro execution: " ++ msg),
         Ev.errorCb ("Fatal error during macro execution: " ++ msg),
         Ev.done false], false)) ∨
    ((runCd stopAt).2.2 = true ∧ (runOl m kb stopAt).2.2.2 = none ∧
      flagAt stopAt (runOl m kb stopAt).2.2.1 = true ∧
      m.run kb stopAt false = ((runCd stopAt).1 ++ (runOl m kb stopAt).1 ++
        [Ev.status "Macro completed successfully!", Ev.done true], false)) ∨
    ((runCd stopAt).2.2 = true ∧ (runOl m kb stopAt).2.2.2 = none ∧
      flagAt stopAt (runOl m kb stopAt).2.2.1 = false ∧
      m.run kb stopAt false = ((runCd stopAt).1 ++ (runOl m kb stopAt).1 ++
        [Ev.done false], false)) := by
  by_cases hcd : (runCd stopAt).2.2 = false
  · refine Or.inl ⟨hcd, ?_⟩
    rw [MacroExecutor.run, if_neg hne, if_neg (by simp), if_pos hcd]
  · have hcd' : (runCd stopAt).2.2 = true := by simpa using hcd
    cases hol : (runOl m kb stopAt).2.2.2 with
    | some msg =>
      refine Or.inr (Or.inl ⟨hcd', msg, rfl, ?_⟩)
      rw [MacroExecutor.run, if_neg hne, if_neg (by simp), if_neg hcd, hol]
      rfl
    | none =>
      by_cases hfl : flagAt stopAt (runOl m kb stopAt).2.2.1 = true
      · refine Or.inr (Or.inr (Or.inl ⟨hcd', rfl, hfl, ?_⟩))
        rw [MacroExecutor.run, if_neg hne, if_neg (by simp), if_neg hcd, hol]
        show (if flagAt stopAt (runOl m kb stopAt).2.2.1 then _ else _) = _
        rw [if_pos hfl]
      · refine Or.inr (Or.inr (Or.inr ⟨hcd', rfl, by simpa using hfl, ?_⟩))
        rw [MacroExecutor.run, if_neg hne, if_neg (by simp), if_neg hcd, hol]
        show (if flagAt stopAt (runOl m kb stopAt).2.2.1 then _ else _) = _
        rw [if_neg hfl]

/-- After any fresh-instance run on a non-empty action list, the running
flag ends `false`. -/
theorem run_final_flag (m : MacroExecutor) (kb : List String) (stopAt : Option Nat)
    (hne : ¬ (m.actions = [])) :
    (m.run kb stopAt false).2 = false := by
  rcases run_shape m kb stopAt hne with ⟨-, h⟩ | ⟨-, _, -, h⟩ | ⟨-, -, -, h⟩ | ⟨-, -, -, h⟩ <;>
    rw [h]

theorem flagAt_none (k : Nat) : flagAt none k = true := rfl

/-- With no stop request the countdown runs to completion, emitting the
three tick statuses with a hard one-second sleep after each. -/
theorem runCd_none :
    runCd none =
      ([Ev.status "Starting in 3...", Ev.hardSleep 1, Ev.status "Starting in 2...",
        Ev.hardSleep 1, Ev.status "Starting in 1...", Ev.hardSleep 1], 3, true) := by
  decide

/-- A never-stopped run whose handlers all return dispatches the complete
lexicographic enumeration and reports done exactly once with `true`. -/
theorem run_exact (m : MacroExecutor) (kb : List String) (hne : ¬ (m.actions = []))
    (hnr : ∀ a ∈ m.actions, raisesAct kb a = false) :
    dispatchEvents (m.run kb none false).1 = lexEnum m.loopCount m.actions.length ∧
    doneEvents (m.run kb none false).1 = [true] := by
  obtain ⟨hcdd, hcddone, -, hcdnone⟩ := countdown_spec none 3 0
  have hcdt : (runCd none).2.2 = true := hcdnone rfl
  have hnrol : (runOl m kb none).2.2.2 = none :=
    outerLoop_no_raise kb none m.actions (m.actions.length * m.loopCount) m.loopCount
      m.loopCount 0 0 (runCd none).2.1 hnr
  obtain ⟨holpre, holdone, -, holcase⟩ :=
    outerLoop_spec kb none m.actions (m.actions.length * m.loopCount) m.loopCount
      m.loopCount 0 0 (runCd none).2.1
  have holfull : dispatchEvents (runOl m kb none).1 =
      lexEnumFrom 0 m.actions.length m.loopCount := by
    rcases holcase with ⟨msg, h⟩ | h | ⟨-, h⟩
    · have h' : (runOl m kb none).2.2.2 = some msg := h
      rw [hnrol] at h'
      exact absurd h' (by simp)
    · exact h
    · have h' : flagAt none (runOl m kb none).2.2.1 = false := h
      rw [flagAt_none] at h'
      exact absurd h' (by simp)
  have hcddisp : dispatchEvents (runCd none).1 = [] := hcdd
  have hcdzero : doneEvents (runCd none).1 = [] := by
    rcases hcddone with ⟨-, h⟩ | ⟨h, -⟩
    · exact h
    · rw [hcdnone rfl] at h
      exact absurd h (by simp)
  have holdone' : doneEvents (runOl m kb none).1 = [] := holdone
  rcases run_shape m kb none hne with ⟨hc, -⟩ | ⟨-, msg, hsome, -⟩ |
    ⟨-, -, -, htr⟩ | ⟨-, -, hff, -⟩
  · rw [hcdt] at hc
    exact absurd hc (by simp)
  · rw [hnrol] at hsome
    exact absurd hsome (by simp)
  · rw [htr]
    constructor
    · simp only [dispatchEvents_append]
      rw [hcddisp, holfull]
      simp [dispatchEvents, lexEnum]
    · simp only [doneEvents_append]
      rw [hcdzero, holdone']
      simp [doneEvents]
  · rw [flagAt_none] at hff
    exact absurd hff (by simp)

/-- Any never-stopped fresh run on a non-empty action list at least
attempts dispatch of the first action of the first loop. -/
theorem run_first_dispatch (m : MacroExecutor) (kb : List String)
    (hne : ¬ (m.actions = [])) (hl : 1 ≤ m.loopCount) :
    Ev.dispatch 0 0 ∈ (m.run kb none false).1 := by
  obtain ⟨n, hn⟩ : ∃ n, m.loopCount = n + 1 := ⟨m.loopCount - 1, by omega⟩
  obtain ⟨a, rest, hacts⟩ : ∃ a rest, m.actions = a :: rest := by
    cases hh : m.actions with
    | nil => exact absurd hh hne
    | cons a rest => exact ⟨a, rest, rfl⟩
  have hinner : ∀ (total k : Nat),
      Ev.dispatch 0 0 ∈ (innerLoop kb none 0 (a :: rest) 0 0 total k).1 := by
    intro total k
    cases hd : dispatchAct kb a with
    | error msg => rw [innerLoop_cons_err (flagAt_none k) hd]; simp
    | ok hevs => rw [innerLoop_cons_ok (flagAt_none k) hd]; simp
  have hmem : Ev.dispatch 0 0 ∈ (runOl m kb none).1 := by
    show Ev.dispatch 0 0 ∈ (outerLoop kb none m.actions (m.actions.length * m.loopCount)
      m.loopCount m.loopCount 0 0 (runCd none).2.1).1
    rw [hn, outerLoop_succ_go (flagAt_none _)]
    cases hri : (innerLoop kb none 0 m.actions 0 0
        (m.actions.length * (n + 1)) ((runCd none).2.1 + 1)).2.2.2 with
    | some msg =>
      show Ev.dispatch 0 0 ∈ Ev.status _ :: (innerLoop kb none 0 m.actions 0 0
        (m.actions.length * (n + 1)) ((runCd none).2.1 + 1)).1
      rw [hacts]
      exact List.mem_cons_of_mem _ (hinner _ _)
    | none =>
      show Ev.dispatch 0 0 ∈ Ev.status _ :: ((innerLoop kb none 0 m.actions 0 0
        (m.actions.length * (n + 1)) ((runCd none).2.1 + 1)).1 ++ _)
      rw [hacts]
      exact List.mem_cons_of_mem _ (List.mem_append_left _ (hinner _ _))
  rcases run_shape m kb none hne with ⟨hc, -⟩ | ⟨-, msg, -, htr⟩ |
    ⟨-, -, -, htr⟩ | ⟨-, -, -, htr⟩
  · have hct : (runCd none).2.2 = true := (countdown_spec none 3 0).2.2.2 rfl
    rw [hct] at hc
    exact absurd hc (by simp)
  all_goals
    rw [htr]
    exact List.mem_append_left _ (List.mem_append_right _ hmem)

/-- C5: `extract(text, "legacy", pattern)` tries, strictly longest-first,
the standalone 9-, 8-, 7- and 6-digit tiers, left-padding with zeros to
nine digits, returning `None` when no tier matches; within each tier the
match is the first in text order (least start index); and on
`"ID: 12345678 ref"` it returns `"012345678"`. -/
theorem c5_legacy_extraction :
    (∀ (cs : List Char) (k i : Nat), 0 < k →
      (findStandalone k cs = some i ↔
        standaloneAt cs k i = true ∧ ∀ j, j < i → standaloneAt cs k j = false)) ∧
    (∀ (re : ReOracle) (pattern text : String), text ≠ "" →
      processOcrText re text "legacy" pattern =
        match findToken 9 text.data with
        | some t => some (.str (String.mk t))
        | none =>
          match findToken 8 text.data with
          | some t => some (.str (String.mk ('0' :: t)))
          | none =>
            match findToken 7 text.data with
            | some t => some (.str (String.mk ('0' :: '0' :: t)))
            | none =>
              match findToken 6 text.data with
              | some t => some (.str (String.mk ('0' :: '0' :: '0' :: t)))
              | none => none) ∧
    processOcrText noRe "ID: 12345678 ref" "legacy" "" = some (.str "012345678") := by
  refine ⟨fun cs k i hk => findStandalone_iff hk, ?_, by decide⟩
  intro re pattern text htext
  simp only [processOcrText, if_neg htext]
  norm_num
  rcases h9 : findToken 9 text.data with _ | t9 <;>
    rcases h8 : findToken 8 text.data with _ | t8 <;>
      rcases h7 : findToken 7 text.data with _ | t7 <;>
        rcases h6 : findToken 6 text.data with _ | t6 <;>
          simp [legacyExtract, h9, h8, h7, h6]

/-- C5 witness: the iff applied at the 8-digit tier of the spec's
example, and the example itself. -/
theorem c5_legacy_extraction_witness :
    (findStandalone 8 "ID: 12345678 ref".data = some 4 ↔
      standaloneAt "ID: 12345678 ref".data 8 4 = true ∧
      ∀ j, j < 4 → standaloneAt "ID: 12345678 ref".data 8 j = false) ∧
    processOcrText noRe "ID: 12345678 ref" "legacy" "" = some (.str "012345678") :=
  ⟨c5_legacy_extraction.1 "ID: 12345678 ref".data 8 4 (by decide),
   c5_legacy_extraction.2.2⟩

/-- C8 counterexample: on the all-whitespace input `" "` (non-empty, so
the empty-input guard does not fire), the `all_text` mode returns the
stripped text, which is the empty *string*, not `None` — refuting
"returning None when the text is empty after trimming". -/
theorem c8_counterexample :
    processOcrText noRe " " "all_text" "" ≠ none := by decide

/-- C8 (amended): `extract("", mode, pattern)` returns `None` for every
mode and pattern; and for mode `all_text` on non-empty input, `extract`
returns the input trimmed of surrounding whitespace as a string result —
which is the empty string (still a result, not `None`) when the input
trims to nothing. -/
theorem c8_empty_input_and_all_text :
    (∀ (re : ReOracle) (mode pattern : String), processOcrText re "" mode pattern = none) ∧
    (∀ (re : ReOracle) (pattern text : String), text ≠ "" →
      processOcrText re text "all_text" pattern = some (.str (pyStrip text))) := by
  constructor
  · intro re mode pattern
    simp [processOcrText]
  · intro re pattern text htext
    simp [processOcrText, htext]

/-- C8 witness. -/
theorem c8_empty_input_and_all_text_witness :
    processOcrText noRe " " "all_text" "" = some (.str (pyStrip " ")) :=
  c8_empty_input_and_all_text.2 noRe "" " " (by decide)

/-- Equation lemma: a loop iteration whose inner loop raised `msg`
propagates the exception immediately. -/
theorem outerLoop_succ_err {kb : List String} {stopAt : Option Nat} {acts : List Act}
    {total loopCount remaining li cnt k : Nat} {msg : String}
    (hf : flagAt stopAt k = true)
    (hri : (innerLoop kb stopAt li acts 0 cnt total (k + 1)).2.2.2 = some msg) :
    outerLoop kb stopAt acts total loopCount (remaining + 1) li cnt k =
      (Ev.status ("Executing loop " ++ toString (li + 1) ++ "/" ++ toString loopCount) ::
        (innerLoop kb stopAt li acts 0 cnt total (k + 1)).1,
       (innerLoop kb stopAt li acts 0 cnt total (k + 1)).2.1,
       (innerLoop kb stopAt li acts 0 cnt total (k + 1)).2.2.1, some msg) := by
  rw [outerLoop_succ_go hf, hri]
  rfl

/-- A never-stopped fresh run whose first action's handler raises `msg`
performs exactly one dispatch attempt and reports done once with `false`
(after the fatal status/error callbacks). -/
theorem run_first_raises (m : MacroExecutor) (kb : List String) (a : Act)
    (rest : List Act) (hacts : m.actions = a :: rest) (hl : 1 ≤ m.loopCount)
    (msg : String) (hd : dispatchAct kb a = .error msg) :
    dispatchEvents (m.run kb none false).1 = [(0, 0)] ∧
    doneEvents (m.run kb none false).1 = [false] := by
  have hne : ¬ (m.actions = []) := by rw [hacts]; simp
  obtain ⟨n, hn⟩ : ∃ n, m.loopCount = n + 1 := ⟨m.loopCount - 1, by omega⟩
  have hIL : innerLoop kb none 0 m.actions 0 0 (m.actions.length * (n + 1))
      ((runCd none).2.1 + 1) =
      ([Ev.status ("Action " ++ toString (0 + 1) ++ "/" ++
          toString (m.actions.length * (n + 1))), Ev.dispatch 0 0],
       0 + 1, (runCd none).2.1 + 1 + 1, some msg) := by
    rw [hacts]
    exact innerLoop_cons_err (flagAt_none _) hd
  have hOLfull : runOl m kb none =
      (Ev.status ("Executing loop " ++ toString (0 + 1) ++ "/" ++ toString (n + 1)) ::
        (innerLoop kb none 0 m.actions 0 0 (m.actions.length * (n + 1))
          ((runCd none).2.1 + 1)).1,
       (innerLoop kb none 0 m.actions 0 0 (m.actions.length * (n + 1))
          ((runCd none).2.1 + 1)).2.1,
       (innerLoop kb none 0 m.actions 0 0 (m.actions.length * (n + 1))
          ((runCd none).2.1 + 1)).2.2.1, some msg) := by
    show outerLoop kb none m.actions (m.actions.length * m.loopCount) m.loopCount
      m.loopCount 0 0 (runCd none).2.1 = _
    rw [hn]
    exact outerLoop_succ_err (flagAt_none _) (by rw [hIL])
  have hOLsome : (runOl m kb none).2.2.2 = some msg := by rw [hOLfull]
  have hOLdisp : dispatchEvents (runOl m kb none).1 = [(0, 0)] := by
    rw [hOLfull, hIL]
    rfl
  have hOLdone : doneEvents (runOl m kb none).1 = [] := by
    rw [hOLfull, hIL]
    rfl
  have hcdd : dispatchEvents (runCd none).1 = [] := (countdown_spec none 3 0).1
  have hcddone : doneEvents (runCd none).1 = [] := by
    rcases (countdown_spec none 3 0).2.1 with ⟨-, h⟩ | ⟨h, -⟩
    · exact h
    · rw [(countdown_spec none 3 0).2.2.2 rfl] at h
      exact absurd h (by simp)
  rcases run_shape m kb none hne with ⟨hc, -⟩ | ⟨-, msg', hsome, htr⟩ |
    ⟨-, hnone, -, -⟩ | ⟨-, hnone, -, -⟩
  · have hct : (runCd none).2.2 = true := (countdown_spec none 3 0).2.2.2 rfl
    rw [hct] at hc
    exact absurd hc (by simp)
  · have hmsg : msg' = msg := by
      rw [hOLsome] at hsome
      exact (Option.some.injEq _ _ ▸ hsome).symm
    subst hmsg
    rw [htr]
    constructor
    · simp only [dispatchEvents_append]
      rw [hcdd, hOLdisp]
      rfl
    · simp only [doneEvents_append]
      rw [hcddone, hOLdone]
      rfl
  · rw [hOLsome] at hnone
    exact absurd hnone (by simp)
  · rw [hOLsome] at hnone
    exact absurd hnone (by simp)

/-- C1 (code bug): on cancellation during the countdown, the engine calls
the done callback from the cancellation branch and then, because the
`return` sits inside `try`, the `finally` block calls it a second time —
two `on_done(false)` invocations in one run, against the documented
"called once".  The normal path, the empty-list path and the
already-running path each invoke it exactly once (and the already-running
early return leaves the flag set). -/
theorem c1_countdown_cancel_double_done :
    doneEvents ((MacroExecutor.init [Act.click true] 1).run [] (some 0) false).1 =
      [false, false] ∧
    doneEvents ((MacroExecutor.init [Act.click true] 1).run [] none false).1 = [true] ∧
    doneEvents ((MacroExecutor.init [] 1).run [] none false).1 = [false] ∧
    doneEvents ((MacroExecutor.init [Act.click true] 1).run [] none true).1 = [false] ∧
    ((MacroExecutor.init [Act.click true] 1).run [] none true).2 = true :=
  ⟨rfl, rfl, rfl, rfl, rfl⟩

/-- C2 counterexample: a never-cancelled run of two actions with loop
count 1 whose first handler raises performs 1 dispatch attempt, not
`N × len(actions) = 2`. -/
theorem c2_counterexample :
    (dispatchEvents ((MacroExecutor.init [Act.click false, Act.click true] 1).run
        [] none false).1).length ≠
      (MacroExecutor.init [Act.click false, Act.click true] 1).loopCount *
        [Act.click false, Act.click true].length := by
  decide

/-- C2 (amended): with the loop count coerced to ≥ 1 at construction, the
dispatch attempts of any fresh run form a prefix of the lexicographic
enumeration (loops in order, list order within each loop), so their number
is at most `N × len(actions)`; and a run that is never cancelled *and
whose handlers all return normally* dispatches exactly that enumeration.
(The original claim overlooked that a raising handler aborts the run just
like cancellation, cutting the count short.) -/
theorem c2_dispatch_attempts (kb : List String) (acts : List Act) (lc : Int)
    (stopAt : Option Nat) (hne : acts ≠ []) :
    1 ≤ (MacroExecutor.init acts lc).loopCount ∧
    dispatchEvents ((MacroExecutor.init acts lc).run kb stopAt false).1 <+:
      lexEnum (MacroExecutor.init acts lc).loopCount acts.length ∧
    (dispatchEvents ((MacroExecutor.init acts lc).run kb stopAt false).1).length ≤
      (MacroExecutor.init acts lc).loopCount * acts.length ∧
    (stopAt = none → (∀ a ∈ acts, raisesAct kb a = false) →
      dispatchEvents ((MacroExecutor.init acts lc).run kb stopAt false).1 =
        lexEnum (MacroExecutor.init acts lc).loopCount acts.length) := by
  have hne' : ¬ ((MacroExecutor.init acts lc).actions = []) := hne
  have hloop : 1 ≤ (MacroExecutor.init acts lc).loopCount := by
    show 1 ≤ (max 1 lc).toNat
    have h1 : (1 : Int) ≤ max 1 lc := le_max_left 1 lc
    omega
  have hcdd : dispatchEvents (runCd stopAt).1 = [] := (countdown_spec stopAt 3 0).1
  obtain ⟨holpre, -, -, -⟩ :=
    outerLoop_spec kb stopAt (MacroExecutor.init acts lc).actions
      ((MacroExecutor.init acts lc).actions.length * (MacroExecutor.init acts lc).loopCount)
      (MacroExecutor.init acts lc).loopCount (MacroExecutor.init acts lc).loopCount
      0 0 (runCd stopAt).2.1
  have holpre' : dispatchEvents (runOl (MacroExecutor.init acts lc) kb stopAt).1 <+:
      lexEnum (MacroExecutor.init acts lc).loopCount acts.length := holpre
  have hpre : dispatchEvents ((MacroExecutor.init acts lc).run kb stopAt false).1 <+:
      lexEnum (MacroExecutor.init acts lc).loopCount acts.length := by
    rcases run_shape (MacroExecutor.init acts lc) kb stopAt hne' with
      ⟨-, htr⟩ | ⟨-, msg, -, htr⟩ | ⟨-, -, -, htr⟩ | ⟨-, -, -, htr⟩
    · rw [htr]
      rw [show dispatchEvents ((runCd stopAt).1 ++ [Ev.done false]) = [] from by
        rw [dispatchEvents_append, hcdd]; rfl]
      exact List.nil_prefix
    all_goals
      rw [htr]
      simp only [dispatchEvents_append]
      rw [hcdd]
      refine List.IsPrefix.trans ⟨[], ?_⟩ holpre'
      simp [dispatchEvents]
  refine ⟨hloop, hpre, ?_, ?_⟩
  · have hlen := hpre.length_le
    rw [lexEnum_length] at hlen
    exact hlen
  · intro hstop hnr
    subst hstop
    exact (run_exact (MacroExecutor.init acts lc) kb hne' hnr).1

/-- C2 witness. -/
theorem c2_dispatch_attempts_witness :
    1 ≤ (MacroExecutor.init [Act.copy] 2).loopCount ∧
    dispatchEvents ((MacroExecutor.init [Act.copy] 2).run [] none false).1 <+:
      lexEnum (MacroExecutor.init [Act.copy] 2).loopCount [Act.copy].length ∧
    (dispatchEvents ((MacroExecutor.init [Act.copy] 2).run [] none false).1).length ≤
      (MacroExecutor.init [Act.copy] 2).loopCount * [Act.copy].length ∧
    ((none : Option Nat) = none → (∀ a ∈ [Act.copy], raisesAct [] a = false) →
      dispatchEvents ((MacroExecutor.init [Act.copy] 2).run [] none false).1 =
        lexEnum (MacroExecutor.init [Act.copy] 2).loopCount [Act.copy].length) :=
  c2_dispatch_attempts [] [Act.copy] 2 none (by decide)

/-- C3 (code bug): the executor has no `paste_list` branch — a
`paste_list` action falls through to the unknown-action status — and the
loop count is not tied to the paste-list lengths: with one two-item
`paste_list` and loop count 3 the engine runs all 3 iterations (the claim
calls for `min(len(lists)) = 2`), emits "Unknown action type" three
times, and performs no clipboard/paste primitive at all. -/
theorem c3_paste_list_not_implemented :
    ((MacroExecutor.init [Act.pasteList ["a", "b"]] 3).run [] none false).1.count
        (Ev.status "Unknown action type: paste_list") = 3 ∧
    ((MacroExecutor.init [Act.pasteList ["a", "b"]] 3).run [] none false).1.count
        (Ev.status "Executing loop 3/3") = 1 ∧
    dispatchEvents ((MacroExecutor.init [Act.pasteList ["a", "b"]] 3).run [] none false).1 =
      [(0, 0), (1, 0), (2, 0)] ∧
    primEvents ((MacroExecutor.init [Act.pasteList ["a", "b"]] 3).run [] none false).1 =
      [] :=
  ⟨by decide, by decide, rfl, rfl⟩

/-- C7: an unsupported key name in a well-formed `key` action is a soft
failure — the handler returns normally with only a log message, the run
continues through the remaining actions and completes (done `true`) —
whereas a `key` action whose count/interval fields fail to parse raises,
so the run stops after that single dispatch attempt and reports done
`false` through the fatal path. -/
theorem c7_key_error_policy :
    (∀ (kb : List String) (name : String), kb ≠ [] → pyLower name ∉ kb →
      dispatchAct kb (Act.key name true) =
        .ok [Ev.logMsg ("Key press error: Unsupported key: " ++ pyLower name)]) ∧
    (∀ (kb : List String) (name : String),
      dispatchAct kb (Act.key name false) = .error "Malformed key action") ∧
    (∀ (kb : List String) (name : String) (rest : List Act) (lc : Int),
      (∀ a ∈ rest, raisesAct kb a = false) →
      dispatchEvents ((MacroExecutor.init (Act.key name true :: rest) lc).run
          kb none false).1 =
        lexEnum (MacroExecutor.init (Act.key name true :: rest) lc).loopCount
          (rest.length + 1) ∧
      doneEvents ((MacroExecutor.init (Act.key name true :: rest) lc).run
          kb none false).1 = [true]) ∧
    (∀ (kb : List String) (name : String) (rest : List Act) (lc : Int),
      dispatchEvents ((MacroExecutor.init (Act.key name false :: rest) lc).run
          kb none false).1 = [(0, 0)] ∧
      doneEvents ((MacroExecutor.init (Act.key name false :: rest) lc).run
          kb none false).1 = [false]) := by
  have hko : ∀ (kb : List String) (nm : String), raisesAct kb (Act.key nm true) = false := by
    intro kb nm
    by_cases hc : kb ≠ [] ∧ pyLower nm ∉ kb
    · unfold raisesAct
      rw [dispatchAct, if_pos hc]
    · unfold raisesAct
      rw [dispatchAct, if_neg hc]
  have hloop : ∀ (acts : List Act) (lc : Int), 1 ≤ (MacroExecutor.init acts lc).loopCount := by
    intro acts lc
    show 1 ≤ (max 1 lc).toNat
    have h1 : (1 : Int) ≤ max 1 lc := le_max_left 1 lc
    omega
  refine ⟨?_, fun kb name => rfl, ?_, ?_⟩
  · intro kb name hkb hmem
    rw [dispatchAct, if_pos ⟨hkb, hmem⟩]
  · intro kb name rest lc hnr
    have hnr' : ∀ a ∈ (MacroExecutor.init (Act.key name true :: rest) lc).actions,
        raisesAct kb a = false := by
      intro a ha
      rcases List.mem_cons.mp ha with rfl | hmem
      · exact hko kb name
      · exact hnr a hmem
    exact run_exact (MacroExecutor.init (Act.key name true :: rest) lc) kb
      (by simp [MacroExecutor.init]) hnr'
  · intro kb name rest lc
    exact run_first_raises (MacroExecutor.init (Act.key name false :: rest) lc) kb
      (Act.key name false) rest rfl (hloop _ lc) "Malformed key action" rfl

/-- C7 witness. -/
theorem c7_key_error_policy_witness :
    dispatchAct ["a"] (Act.key "zzz" true) =
      .ok [Ev.logMsg ("Key press error: Unsupported key: " ++ pyLower "zzz")] ∧
    dispatchAct ["a"] (Act.key "zzz" false) = .error "Malformed key action" ∧
    (dispatchEvents ((MacroExecutor.init (Act.key "zzz" true :: [Act.copy]) 1).run
        ["a"] none false).1 =
      lexEnum (MacroExecutor.init (Act.key "zzz" true :: [Act.copy]) 1).loopCount
        ([Act.copy].length + 1) ∧
     doneEvents ((MacroExecutor.init (Act.key "zzz" true :: [Act.copy]) 1).run
        ["a"] none false).1 = [true]) ∧
    (dispatchEvents ((MacroExecutor.init (Act.key "zzz" false :: [Act.copy]) 1).run
        ["a"] none false).1 = [(0, 0)] ∧
     doneEvents ((MacroExecutor.init (Act.key "zzz" false :: [Act.copy]) 1).run
        ["a"] none false).1 = [false]) :=
  ⟨c7_key_error_policy.1 ["a"] "zzz" (by decide) (by decide),
   c7_key_error_policy.2.1 ["a"] "zzz",
   c7_key_error_policy.2.2.1 ["a"] "zzz" [Act.copy] 1
     (by intro a ha; rcases List.mem_singleton.mp ha with rfl; rfl),
   c7_key_error_policy.2.2.2 ["a"] "zzz" [Act.copy] 1⟩

/-- C9: `stop()` just clears the running flag, so on a fresh instance
(flag already clear) calling it before `run()` leaves the pre-run state
exactly as it was — the subsequent never-stopped run still emits the full
3-2-1 countdown and at least attempts dispatch of the first action — and
after a run finishes the flag is already clear, so `stop()` is a no-op
then too. -/
theorem c9_stop_outside_run_noop :
    (stopFlag false = false ∧ stopFlag true = false) ∧
    (∀ (kb : List String) (acts : List Act) (lc : Int), acts ≠ [] →
      Ev.status "Starting in 3..." ∈ ((MacroExecutor.init acts lc).run kb none false).1 ∧
      Ev.status "Starting in 2..." ∈ ((MacroExecutor.init acts lc).run kb none false).1 ∧
      Ev.status "Starting in 1..." ∈ ((MacroExecutor.init acts lc).run kb none false).1 ∧
      Ev.dispatch 0 0 ∈ ((MacroExecutor.init acts lc).run kb none false).1 ∧
      ((MacroExecutor.init acts lc).run kb none false).2 = false ∧
      stopFlag ((MacroExecutor.init acts lc).run kb none false).2 =
        ((MacroExecutor.init acts lc).run kb none false).2) := by
  refine ⟨⟨rfl, rfl⟩, ?_⟩
  intro kb acts lc hne
  have hne' : ¬ ((MacroExecutor.init acts lc).actions = []) := hne
  have hloop : 1 ≤ (MacroExecutor.init acts lc).loopCount := by
    show 1 ≤ (max 1 lc).toNat
    have h1 : (1 : Int) ≤ max 1 lc := le_max_left 1 lc
    omega
  have hcdmem : ∀ e, e ∈ (runCd none).1 →
      e ∈ ((MacroExecutor.init acts lc).run kb none false).1 := by
    intro e he
    rcases run_shape (MacroExecutor.init acts lc) kb none hne' with
      ⟨hc, -⟩ | ⟨-, msg, -, htr⟩ | ⟨-, -, -, htr⟩ | ⟨-, -, -, htr⟩
    · have hct : (runCd none).2.2 = true := (countdown_spec none 3 0).2.2.2 rfl
      rw [hct] at hc
      exact absurd hc (by simp)
    all_goals
      rw [htr]
      exact List.mem_append_left _ (List.mem_append_left _ he)
  refine ⟨hcdmem _ (by rw [runCd_none]; simp), hcdmem _ (by rw [runCd_none]; simp),
    hcdmem _ (by rw [runCd_none]; simp),
    run_first_dispatch _ kb hne' hloop, run_final_flag _ kb none hne', ?_⟩
  rw [run_final_flag _ kb none hne']
  rfl

/-- C9 witness. -/
theorem c9_stop_outside_run_noop_witness :
    Ev.status "Starting in 3..." ∈ ((MacroExecutor.init [Act.copy] 1).run [] none false).1 ∧
    Ev.status "Starting in 2..." ∈ ((MacroExecutor.init [Act.copy] 1).run [] none false).1 ∧
    Ev.status "Starting in 1..." ∈ ((MacroExecutor.init [Act.copy] 1).run [] none false).1 ∧
    Ev.dispatch 0 0 ∈ ((MacroExecutor.init [Act.copy] 1).run [] none false).1 ∧
    ((MacroExecutor.init [Act.copy] 1).run [] none false).2 = false ∧
    stopFlag ((MacroExecutor.init [Act.copy] 1).run [] none false).2 =
      ((MacroExecutor.init [Act.copy] 1).run [] none false).2 :=
  c9_stop_outside_run_noop.2 [] [Act.copy] 1 (by decide)

/-- C4 counterexample: with `interval = 1/50` (0.02 s), a failed
comparable attempt with no timeout is followed by an interruptible sleep
of `1/50` seconds — the source's `max(0.01, interval)` — not the claimed
`max(0.05, interval) = 1/20`. -/
theorem c4_counterexample :
    (imgWaitLoop c4Env (8/10) (1/50) 0 5 0 0).1 =
      [WEv.attempt 0 true (1/2), WEv.wsleep (1/50)] ∧
    ¬ ((1 : ℚ)/50 = max (5/100) (1/50)) := by
  constructor
  · have hmax : max (0.01 : ℚ) (1/50) = 1/50 := max_eq_right (by norm_num)
    rw [show (5:Nat) = 4 + 1 from rfl, imgWaitLoop]
    rw [if_pos (show flagAt c4Env.stopAt 0 = true from rfl)]
    rw [if_neg (show ¬ ((c4Env.matchAt 0).1 = true ∧ (c4Env.matchAt 0).2 ≥ 8/10) from
      fun h => by norm_num [c4Env] at h)]
    rw [if_neg (show ¬ ¬ ((c4Env.matchAt 0).1 = true) from fun h => h rfl)]
    rw [if_neg (show ¬ ((0:ℚ) > 0 ∧ c4Env.timeoutAt 0 = true) from fun h =>
      absurd h.1 (lt_irrefl 0))]
    rw [hmax]
    rw [show (4:Nat) = 3 + 1 from rfl, imgWaitLoop]
    rw [if_neg (show ¬ (flagAt c4Env.stopAt 1 = true) from by decide)]
    rfl
  · rw [max_eq_left (by norm_num : (1:ℚ)/50 ≤ 5/100)]
    norm_num

/-- C4 (amended): in an `img_check` wait, after each unsuccessful
comparable match attempt that has not hit the timeout, the engine requests
an interruptible sleep of exactly `max(0.01, interval)` seconds before
retrying (every sleep in a wait trace has that duration); and the
interruptible-sleep primitive consumes the request in increments of at
most 0.05 s.  (The spec's `max(0.05, interval)` does not match the
source's `max(0.01, interval)`.) -/
theorem c4_wait_retry_sleep (env : WaitEnv) (threshold interval timeout : ℚ) :
    (∀ (fuel n k : Nat) (d : ℚ),
      WEv.wsleep d ∈ (imgWaitLoop env threshold interval timeout fuel n k).1 →
      d = max 0.01 interval) ∧
    (∀ (fuel n k : Nat), flagAt env.stopAt k = true →
      (env.matchAt n).1 = true → (env.matchAt n).2 < threshold →
      ¬ (timeout > 0 ∧ env.timeoutAt n = true) →
      (imgWaitLoop env threshold interval timeout (fuel + 1) n k).1 =
        WEv.attempt n (env.matchAt n).1 (env.matchAt n).2 ::
          WEv.wsleep (max 0.01 interval) ::
          (imgWaitLoop env threshold interval timeout fuel (n + 1) (k + 1)).1) ∧
    (∀ (stopAt : Option Nat) (fuel : Nat) (rem : ℚ) (k : Nat) (d : ℚ),
      d ∈ sleepWithChecks stopAt fuel rem k → 0 < d ∧ d ≤ 0.05) := by
  refine ⟨?_, ?_, ?_⟩
  · intro fuel
    induction fuel with
    | zero => intro n k d h; exact absurd h (by simp [imgWaitLoop])
    | succ fuel ih =>
      intro n k d h
      rw [imgWaitLoop] at h
      split at h
      · split at h
        · simp at h
        · split at h
          · simp at h
          · split at h
            · simp at h
            · simp only [List.mem_cons] at h
              rcases h with h | h | h
              · exact absurd h (by simp)
              · injection h
              · exact ih (n + 1) (k + 1) d h
      · simp at h
  · intro fuel n k hf hok hlt htm
    rw [imgWaitLoop, if_pos hf]
    rw [if_neg (fun h => absurd h.2 (not_le.mpr hlt))]
    rw [if_neg (fun h => h hok)]
    rw [if_neg htm]
  · intro stopAt fuel
    induction fuel with
    | zero => intro rem k d h; exact absurd h (by simp [sleepWithChecks])
    | succ fuel ih =>
      intro rem k d h
      rw [sleepWithChecks] at h
      split at h
      · split at h
        · simp only [List.mem_cons] at h
          rcases h with rfl | h
          · constructor
            · refine lt_min ?_ (by assumption)
              norm_num
            · exact min_le_left _ _
          · exact ih (rem - min 0.05 rem) (k + 1) d h
        · simp at h
      · simp at h

/-- C4 witness. -/
theorem c4_wait_retry_sleep_witness :
    (imgWaitLoop c4Env (8/10) (1/50) 0 (0 + 1) 0 0).1 =
      WEv.attempt 0 (c4Env.matchAt 0).1 (c4Env.matchAt 0).2 ::
        WEv.wsleep (max 0.01 (1/50)) ::
        (imgWaitLoop c4Env (8/10) (1/50) 0 0 (0 + 1) (0 + 1)).1 :=
  (c4_wait_retry_sleep c4Env (8/10) (1/50) 0).2.1 0 0 0 rfl rfl (by norm_num [c4Env])
    (fun h => absurd h.1 (lt_irrefl 0))

end MacroProof
